import Mathlib

/-!
Verification development for the a2a cooperative value-sharing economy.

Shallow embedding conventions:
* Python floats are modelled as exact rationals (ℚ); decimal literals such as
  `1e-9` become the exact rationals they denote.  Where a claim concerns the
  IEEE special values NaN/±inf (the `ImpactVector` validation), floats are
  modelled by the dedicated type `PFloat` below.
* Python dicts keyed by strings are modelled as association lists built with
  Python's insertion semantics (`dictInsert`): inserting an existing key
  updates its value in place, a new key is appended.
* `time.time()` is an effect: it is modelled by an explicit `clock : ℕ → ℚ`
  parameter giving the timestamp observed when the record of round `i` is
  created.
* All definitions are computable so concrete runs can be evaluated by `decide`.
-/

set_option maxRecDepth 100000
set_option allowUnsafeReducibility true
attribute [semireducible] Rat.add Rat.mul Rat.inv Rat.sub Rat.ofScientific

namespace A2A

/-- Python `abs` on our rational model of floats. -/
def qabs (x : ℚ) : ℚ := if x < 0 then -x else x

/-- Python `min` of two floats. -/
def qmin (x y : ℚ) : ℚ := if x ≤ y then x else y

/-- Python `max` of two floats. -/
def qmax (x y : ℚ) : ℚ := if x ≤ y then y else x

/-- Round-half-to-even to the nearest integer, the tie-breaking rule of
Python's builtin `round`. -/
def roundHalfEven (x : ℚ) : ℤ :=
  let f := Int.floor x
  let r := x - (f : ℚ)
  if r < 1/2 then f
  else if 1/2 < r then f + 1
  else if f % 2 = 0 then f else f + 1

/-- Python `round(x, 4)` on the exact-rational model. -/
def round4 (x : ℚ) : ℚ := (roundHalfEven (x * 10000) : ℚ) / 10000

/-- Python dict insertion: an existing key has its value replaced in place,
a fresh key is appended at the end. -/
def dictInsert (d : List (String × ℚ)) (k : String) (v : ℚ) : List (String × ℚ) :=
  match d with
  | [] => [(k, v)]
  | (k0, v0) :: rest => if k0 = k then (k0, v) :: rest else (k0, v0) :: dictInsert rest k v

/-- A Python dict comprehension over a list of key/value pairs:
later pairs with an equal key silently shadow earlier ones. -/
def dictOfPairs (ps : List (String × ℚ)) : List (String × ℚ) :=
  ps.foldl (fun d p => dictInsert d p.1 p.2) []

/-- Dict lookup (keys of a built dict are unique, first match suffices). -/
def dictGet (d : List (String × ℚ)) (k : String) : Option ℚ :=
  match d with
  | [] => none
  | (k0, v0) :: rest => if k0 = k then some v0 else dictGet rest k

/-- `dict.values()` of the association-list model. -/
def dictValues (d : List (String × ℚ)) : List ℚ := d.map Prod.snd

/-- `src/models/impact.py` `ContributionClaim` (the fields read by the
negotiation engine; the free-form `metadata` dict and the wall-clock
`timestamp` are never read by `negotiate_splits` and are omitted). -/
structure ContributionClaim where
  agent_id : String
  cluster_id : String
  marginal_impact_estimate : ℚ
  uncertainty_margin : ℚ
  dependency_influence_weight : ℚ
  task_ids : List String
deriving Repr, DecidableEq

/-- `src/models/impact.py` `SurplusPool` (fields read by negotiation;
`metadata`/`timestamp` omitted as above). -/
structure SurplusPool where
  cluster_id : String
  total_surplus : ℚ
  confidence_interval : ℚ × ℚ
  aggregated_vectors : List (String × ℚ)
  task_ids : List String
deriving Repr, DecidableEq

/-- `src/engine/negotiation.py` `NegotiationRound`. -/
structure NegotiationRound where
  round_number : ℕ
  allocations : List (String × ℚ)
  deviation_from_objective : ℚ
  allocation_variance : ℚ
  timestamp : ℚ
deriving Repr, DecidableEq

/-- The result dict of `negotiate_splits`.  The degenerate early return omits
the `final_deviation` and `objective_targets` keys, hence the `Option`s. -/
structure NegotiationResult where
  cluster_id : String
  total_surplus : ℚ
  final_allocations : List (String × ℚ)
  rounds_to_convergence : ℕ
  converged : Bool
  final_deviation : Option ℚ
  history : List NegotiationRound
  objective_targets : Option (List (String × ℚ))
deriving Repr, DecidableEq

/-- `AutonomousNegotiationEngine.__init__` configuration. -/
structure NegotiationEngine where
  max_iterations : ℕ
  equilibrium_tolerance : ℚ
  fairness_weight : ℚ
deriving Repr, DecidableEq

/-- `AutonomousNegotiationEngine._calculate_variance`. -/
def calcVariance (values : List ℚ) : ℚ :=
  if values = [] then 0
  else
    let n : ℚ := values.length
    let mean := values.sum / n
    (values.map (fun x => (x - mean) * (x - mean))).sum / n

/-- Flexibility score of one claim (negotiation.py line 115). -/
def claimFlexibility (c : ContributionClaim) : ℚ :=
  qmin 1 (c.uncertainty_margin / (c.marginal_impact_estimate + 1 / 1000000000))

/-- Clamped adjustment velocity of one claim (negotiation.py lines 119-121). -/
def claimVelocity (c : ContributionClaim) : ℚ :=
  qmax (1/20) (qmin (3/5)
    ((1/4) * (1 + claimFlexibility c - (2/5) * c.dependency_influence_weight)))

/-- Marginal-contribution targets (negotiation.py lines 72-79). -/
def marginalTargets (claims : List ContributionClaim) (total_surplus : ℚ) : List ℚ :=
  let ms := claims.map (·.marginal_impact_estimate)
  if 0 < ms.sum then ms.map (fun m => m / ms.sum * total_surplus)
  else List.replicate claims.length (total_surplus / (claims.length : ℚ))

/-- Composite objective targets (negotiation.py lines 81-90). -/
def objectiveTargets (fw : ℚ) (claims : List ContributionClaim) (total_surplus : ℚ) : List ℚ :=
  (marginalTargets claims total_surplus).map
    (fun mt => (1 - fw) * mt + fw * (total_surplus / (claims.length : ℚ)))

/-- The per-session data fixed before the bargaining loop starts. -/
structure SessionData where
  ids : List String
  velocities : List ℚ
  targets : List ℚ
  s : ℚ
  n : ℕ
  tol : ℚ

/-- Session data assembled by `negotiate_splits` before its loop. -/
def mkSession (engine : NegotiationEngine) (pool : SurplusPool)
    (claims : List ContributionClaim) : SessionData :=
  { ids := claims.map (·.agent_id)
    velocities := claims.map claimVelocity
    targets := objectiveTargets engine.fairness_weight claims pool.total_surplus
    s := pool.total_surplus
    n := claims.length
    tol := engine.equilibrium_tolerance }

/-- One iteration of the bargaining loop: per-agent exponential approach to the
objective target followed by global renormalization (negotiation.py 101-133). -/
def SessionData.step (sd : SessionData) (cur : List ℚ) : List ℚ :=
  let newAllocs := List.zipWith (fun vt c => c + vt.1 * (vt.2 - c)) (sd.velocities.zip sd.targets) cur
  let sumNew := newAllocs.sum
  if 0 < sumNew then newAllocs.map (fun v => v / sumNew * sd.s)
  else List.replicate sd.n (sd.s / (sd.n : ℚ))

/-- Allocation state after `k` loop iterations (state `0` is the uniform
initial allocation of negotiation.py line 93). -/
def SessionData.traj (sd : SessionData) : ℕ → List ℚ
  | 0 => List.replicate sd.n (sd.s / (sd.n : ℚ))
  | k + 1 => sd.step (sd.traj k)

/-- Total absolute deviation of an allocation state from the objective
targets (negotiation.py line 137). -/
def SessionData.dev (sd : SessionData) (cur : List ℚ) : ℚ :=
  (List.zipWith (fun a t => qabs (a - t)) cur sd.targets).sum

/-- The `NegotiationRound` recorded at loop iteration `it`
(negotiation.py lines 139-144). -/
def SessionData.mkRec (sd : SessionData) (clock : ℕ → ℚ) (it : ℕ)
    (cur : List ℚ) (deviation curVar : ℚ) : NegotiationRound :=
  { round_number := it
    allocations := dictOfPairs (sd.ids.zip (cur.map round4))
    deviation_from_objective := round4 deviation
    allocation_variance := round4 curVar
    timestamp := clock it }

/-- The bargaining loop (negotiation.py lines 100-151), with the remaining
iteration budget as structural fuel.  Returns the final (unrounded)
allocations, the recorded history and the converged flag. -/
def SessionData.loop (sd : SessionData) (clock : ℕ → ℚ) :
    ℕ → ℕ → List ℚ → ℚ → List NegotiationRound →
    List ℚ × List NegotiationRound × Bool
  | 0, _, cur, _, hist => (cur, hist, false)
  | fuel + 1, it, cur, prevVar, hist =>
    let next := sd.step cur
    let curVar := calcVariance next
    let deviation := sd.dev next
    let hist1 := hist ++ [sd.mkRec clock it next deviation curVar]
    if 0 < it ∧ (qabs (curVar - prevVar) < sd.tol ∨ deviation < sd.tol) then
      (next, hist1, true)
    else
      sd.loop clock fuel (it + 1) next curVar hist1

/-- `AutonomousNegotiationEngine.negotiate_splits` (negotiation.py 49-162). -/
def negotiate_splits (engine : NegotiationEngine) (clock : ℕ → ℚ)
    (pool : SurplusPool) (claims : List ContributionClaim) : NegotiationResult :=
  if claims = [] ∨ pool.total_surplus ≤ 0 then
    { cluster_id := pool.cluster_id
      total_surplus := pool.total_surplus
      final_allocations := []
      rounds_to_convergence := 0
      converged := true
      final_deviation := none
      history := []
      objective_targets := none }
  else
    let sd := mkSession engine pool claims
    let init := List.replicate sd.n (sd.s / (sd.n : ℚ))
    let out := sd.loop clock engine.max_iterations 0 init (calcVariance init) []
    { cluster_id := pool.cluster_id
      total_surplus := sd.s
      final_allocations := dictOfPairs (sd.ids.zip (out.1.map round4))
      rounds_to_convergence := out.2.1.length
      converged := out.2.2
      final_deviation := some (round4 (sd.dev out.1))
      history := out.2.1
      objective_targets := some (dictOfPairs (sd.ids.zip (sd.targets.map round4))) }

/-! ### Characterization of the bargaining loop -/

/-- The convergence condition checked at loop iteration `i` (for `i ≥ 1`):
the variance of the allocations has stabilized, or the total absolute
deviation from the objective targets dropped below the tolerance. -/
def SessionData.condAt (sd : SessionData) (i : ℕ) : Prop :=
  qabs (calcVariance (sd.traj (i + 1)) - calcVariance (sd.traj i)) < sd.tol ∨
    sd.dev (sd.traj (i + 1)) < sd.tol

instance (sd : SessionData) (i : ℕ) : Decidable (sd.condAt i) := by
  unfold SessionData.condAt; infer_instance

/-- First iteration index `i` in `[it, it+fuel)` with `0 < i` at which the
convergence condition fires. -/
def SessionData.findConv (sd : SessionData) : ℕ → ℕ → Option ℕ
  | _, 0 => none
  | it, fuel + 1 =>
    if 0 < it ∧ sd.condAt it then some it else sd.findConv (it + 1) fuel

/-- Number of rounds the loop records before stopping. -/
def SessionData.rounds (sd : SessionData) (maxIter : ℕ) : ℕ :=
  match sd.findConv 0 maxIter with
  | some i => i + 1
  | none => maxIter

/-- The `NegotiationRound` recorded for loop iteration `j`. -/
def SessionData.histEntry (sd : SessionData) (clock : ℕ → ℚ) (j : ℕ) : NegotiationRound :=
  sd.mkRec clock j (sd.traj (j + 1)) (sd.dev (sd.traj (j + 1)))
    (calcVariance (sd.traj (j + 1)))

theorem SessionData.findConv_ge (sd : SessionData) :
    ∀ fuel it i, sd.findConv it fuel = some i → it ≤ i := by
  intro fuel
  induction fuel with
  | zero => intro it i h; simp [SessionData.findConv] at h
  | succ fuel ih =>
    intro it i h
    rw [SessionData.findConv] at h
    split at h
    · simp only [Option.some.injEq] at h; omega
    · exact Nat.le_of_succ_le (ih (it + 1) i h)

theorem SessionData.loop_eq (sd : SessionData) (clock : ℕ → ℚ) :
    ∀ (fuel it : ℕ) (hist : List NegotiationRound),
      sd.loop clock fuel it (sd.traj it) (calcVariance (sd.traj it)) hist =
        match sd.findConv it fuel with
        | some i =>
            (sd.traj (i + 1), hist ++ (List.range' it (i + 1 - it)).map (sd.histEntry clock), true)
        | none =>
            (sd.traj (it + fuel), hist ++ (List.range' it fuel).map (sd.histEntry clock), false) := by
  intro fuel
  induction fuel with
  | zero =>
    intro it hist
    simp [SessionData.loop, SessionData.findConv]
  | succ fuel ih =>
    intro it hist
    have hstep : sd.step (sd.traj it) = sd.traj (it + 1) := rfl
    by_cases hc : 0 < it ∧ sd.condAt it
    · have hcond : 0 < it ∧ (qabs (calcVariance (sd.step (sd.traj it)) -
          calcVariance (sd.traj it)) < sd.tol ∨ sd.dev (sd.step (sd.traj it)) < sd.tol) := by
        rw [hstep]; exact hc
      simp only [SessionData.loop, if_pos hcond, SessionData.findConv, if_pos hc]
      have hone : it + 1 - it = 1 := by omega
      rw [hone]
      simp [SessionData.histEntry, hstep]
    · have hcond : ¬(0 < it ∧ (qabs (calcVariance (sd.step (sd.traj it)) -
          calcVariance (sd.traj it)) < sd.tol ∨ sd.dev (sd.step (sd.traj it)) < sd.tol)) := by
        rw [hstep]; exact hc
      simp only [SessionData.loop, if_neg hcond, SessionData.findConv, if_neg hc]
      rw [hstep]
      have hrec := ih (it + 1) (hist ++ [sd.mkRec clock it (sd.traj (it + 1))
        (sd.dev (sd.traj (it + 1))) (calcVariance (sd.traj (it + 1)))])
      rw [hrec]
      cases hfind : sd.findConv (it + 1) fuel with
      | some i =>
        have hge : it + 1 ≤ i := sd.findConv_ge fuel (it + 1) i hfind
        dsimp only
        have hlen : i + 1 - it = (i - it - 1) + 1 + 1 := by omega
        have hlen2 : i + 1 - (it + 1) = (i - it - 1) + 1 := by omega
        rw [hlen, hlen2, List.range'_succ]
        simp only [List.append_assoc, List.singleton_append]
        rw [List.range'_succ, List.range'_succ]
        simp [SessionData.histEntry]
      | none =>
        dsimp only
        have hadd : it + 1 + fuel = it + (fuel + 1) := by omega
        rw [List.range'_succ, hadd]
        simp [SessionData.histEntry, List.append_assoc]

/-- Closed form of `negotiate_splits` in the non-degenerate case, expressed
through the trajectory of the bargaining loop. -/
theorem negotiate_splits_run (engine : NegotiationEngine) (clock : ℕ → ℚ)
    (pool : SurplusPool) (claims : List ContributionClaim) (sd : SessionData)
    (hsd : sd = mkSession engine pool claims)
    (h : ¬(claims = [] ∨ pool.total_surplus ≤ 0)) :
    negotiate_splits engine clock pool claims =
      { cluster_id := pool.cluster_id
        total_surplus := sd.s
        final_allocations :=
          dictOfPairs (sd.ids.zip ((sd.traj (sd.rounds engine.max_iterations)).map round4))
        rounds_to_convergence := sd.rounds engine.max_iterations
        converged := (sd.findConv 0 engine.max_iterations).isSome
        final_deviation := some (round4 (sd.dev (sd.traj (sd.rounds engine.max_iterations))))
        history := (List.range' 0 (sd.rounds engine.max_iterations)).map (sd.histEntry clock)
        objective_targets := some (dictOfPairs (sd.ids.zip (sd.targets.map round4))) } := by
  subst hsd
  unfold negotiate_splits
  rw [if_neg h]
  have hinit : List.replicate (mkSession engine pool claims).n
      ((mkSession engine pool claims).s / ((mkSession engine pool claims).n : ℚ)) =
      (mkSession engine pool claims).traj 0 := rfl
  simp only [hinit]
  rw [(mkSession engine pool claims).loop_eq clock engine.max_iterations 0 []]
  cases hf : (mkSession engine pool claims).findConv 0 engine.max_iterations with
  | some i =>
    simp [SessionData.rounds, hf]
  | none =>
    simp [SessionData.rounds, hf]

theorem SessionData.findConv_some_spec (sd : SessionData) :
    ∀ fuel it i, sd.findConv it fuel = some i →
      it ≤ i ∧ i < it + fuel ∧ 0 < i ∧ sd.condAt i ∧
        ∀ j, it ≤ j → j < i → ¬(0 < j ∧ sd.condAt j) := by
  intro fuel
  induction fuel with
  | zero => intro it i h; simp [SessionData.findConv] at h
  | succ fuel ih =>
    intro it i h
    rw [SessionData.findConv] at h
    by_cases hc : 0 < it ∧ sd.condAt it
    · rw [if_pos hc] at h
      simp only [Option.some.injEq] at h
      subst h
      exact ⟨le_refl _, by omega, hc.1, hc.2, fun j h1 h2 => by omega⟩
    · rw [if_neg hc] at h
      obtain ⟨a1, a2, a3, a4, a5⟩ := ih (it + 1) i h
      refine ⟨by omega, by omega, a3, a4, ?_⟩
      intro j hj1 hj2
      rcases Nat.eq_or_lt_of_le hj1 with he | hl
      · subst he; exact hc
      · exact a5 j hl hj2

theorem SessionData.findConv_none_spec (sd : SessionData) :
    ∀ fuel it, sd.findConv it fuel = none →
      ∀ i, it ≤ i → i < it + fuel → ¬(0 < i ∧ sd.condAt i) := by
  intro fuel
  induction fuel with
  | zero => intro it _ i h1 h2; omega
  | succ fuel ih =>
    intro it h i h1 h2
    rw [SessionData.findConv] at h
    by_cases hc : 0 < it ∧ sd.condAt it
    · rw [if_pos hc] at h; exact absurd h (by simp)
    · rw [if_neg hc] at h
      rcases Nat.eq_or_lt_of_le h1 with he | hl
      · subst he; exact hc
      · exact ih (it + 1) h i hl (by omega)

/-! ### Structural facts: lengths, conservation, rounding, dict building -/

theorem marginalTargets_length (claims : List ContributionClaim) (s : ℚ) :
    (marginalTargets claims s).length = claims.length := by
  unfold marginalTargets
  dsimp only
  split <;> simp

theorem mkSession_ids_length (engine : NegotiationEngine) (pool : SurplusPool)
    (claims : List ContributionClaim) :
    (mkSession engine pool claims).ids.length = (mkSession engine pool claims).n := by
  simp [mkSession]

theorem mkSession_velocities_length (engine : NegotiationEngine) (pool : SurplusPool)
    (claims : List ContributionClaim) :
    (mkSession engine pool claims).velocities.length = (mkSession engine pool claims).n := by
  simp [mkSession]

theorem mkSession_targets_length (engine : NegotiationEngine) (pool : SurplusPool)
    (claims : List ContributionClaim) :
    (mkSession engine pool claims).targets.length = (mkSession engine pool claims).n := by
  simp [mkSession, objectiveTargets, marginalTargets_length]

theorem sum_map_scale (L : List ℚ) (a b : ℚ) :
    (L.map (fun x => x / a * b)).sum = L.sum / a * b := by
  induction L with
  | nil => simp
  | cons x xs ih =>
    simp only [List.map_cons, List.sum_cons, ih]
    ring

/-- The normalization branch makes every post-step state sum to `s`
(closed-system conservation), whatever the incoming state was. -/
theorem SessionData.step_sum (sd : SessionData) (hn : sd.n ≠ 0) (cur : List ℚ) :
    (sd.step cur).sum = sd.s := by
  unfold SessionData.step
  dsimp only
  split
  · rename_i hpos
    rw [sum_map_scale, div_self (ne_of_gt hpos), one_mul]
  · rw [List.sum_replicate, nsmul_eq_mul]
    field_simp

theorem SessionData.traj_sum (sd : SessionData) (hn : sd.n ≠ 0) :
    ∀ k, (sd.traj k).sum = sd.s := by
  intro k
  cases k with
  | zero =>
    rw [SessionData.traj, List.sum_replicate, nsmul_eq_mul]
    field_simp
  | succ k => exact sd.step_sum hn (sd.traj k)

theorem SessionData.step_length (sd : SessionData)
    (hv : sd.velocities.length = sd.n) (ht : sd.targets.length = sd.n)
    (cur : List ℚ) (hc : cur.length = sd.n) : (sd.step cur).length = sd.n := by
  unfold SessionData.step
  dsimp only
  split
  · simp [List.length_zipWith, hv, ht, hc]
  · simp

theorem SessionData.traj_length (sd : SessionData)
    (hv : sd.velocities.length = sd.n) (ht : sd.targets.length = sd.n) :
    ∀ k, (sd.traj k).length = sd.n := by
  intro k
  induction k with
  | zero => simp [SessionData.traj]
  | succ k ih => exact sd.step_length hv ht _ ih

theorem roundHalfEven_close (y : ℚ) : |(roundHalfEven y : ℚ) - y| ≤ 1/2 := by
  have h1 : ((Int.floor y : ℤ) : ℚ) ≤ y := Int.floor_le y
  have h2 : y < Int.floor y + 1 := Int.lt_floor_add_one y
  unfold roundHalfEven
  dsimp only
  split
  · rename_i h
    rw [abs_le]
    constructor <;> linarith
  · split
    · rename_i h h2x
      rw [abs_le]
      push_cast
      constructor <;> linarith
    · split
      · rename_i h h2x h3
        rw [abs_le]
        constructor <;> linarith
      · rename_i h h2x h3
        rw [abs_le]
        push_cast
        constructor <;> linarith

theorem round4_close (x : ℚ) : |round4 x - x| ≤ 1/20000 := by
  unfold round4
  have h := roundHalfEven_close (x * 10000)
  have heq : (roundHalfEven (x * 10000) : ℚ) / 10000 - x =
      ((roundHalfEven (x * 10000) : ℚ) - x * 10000) / 10000 := by ring
  rw [heq, abs_div, abs_of_pos (by norm_num : (0:ℚ) < 10000)]
  linarith

theorem round4_nonneg (x : ℚ) (hx : 0 ≤ x) : 0 ≤ round4 x := by
  unfold round4
  have h0 : (0:ℤ) ≤ Int.floor (x * 10000) := by positivity
  have key : (0:ℤ) ≤ roundHalfEven (x * 10000) := by
    unfold roundHalfEven
    dsimp only
    split
    · exact h0
    · split
      · omega
      · split <;> omega
  positivity

theorem sum_map_round4_close (L : List ℚ) :
    |(L.map round4).sum - L.sum| ≤ (L.length : ℚ) * (1/20000) := by
  induction L with
  | nil => simp
  | cons x xs ih =>
    simp only [List.map_cons, List.sum_cons, List.length_cons]
    have h1 := round4_close x
    have h2 : |round4 x + ((xs.map round4).sum) - (x + xs.sum)| ≤
        |round4 x - x| + |(xs.map round4).sum - xs.sum| := by
      have : round4 x + ((xs.map round4).sum) - (x + xs.sum) =
          (round4 x - x) + ((xs.map round4).sum - xs.sum) := by ring
      rw [this]
      exact abs_add _ _
    push_cast
    linarith

theorem dictInsert_of_not_mem (d : List (String × ℚ)) (k : String) (v : ℚ)
    (h : k ∉ d.map Prod.fst) : dictInsert d k v = d ++ [(k, v)] := by
  induction d with
  | nil => rfl
  | cons p rest ih =>
    obtain ⟨k0, v0⟩ := p
    simp only [List.map_cons, List.mem_cons, not_or] at h
    rw [dictInsert, if_neg (Ne.symm h.1), ih h.2]
    rfl

theorem foldl_dictInsert_of_nodup :
    ∀ (ps acc : List (String × ℚ)), ((acc ++ ps).map Prod.fst).Nodup →
      ps.foldl (fun d p => dictInsert d p.1 p.2) acc = acc ++ ps := by
  intro ps
  induction ps with
  | nil => intro acc _; simp
  | cons p rest ih =>
    intro acc h
    obtain ⟨k, v⟩ := p
    have hk : k ∉ acc.map Prod.fst := by
      simp only [List.map_append, List.nodup_append, List.map_cons] at h
      intro hmem
      exact h.2.2 hmem (List.mem_cons_self _ _)
    rw [List.foldl_cons]
    dsimp only
    rw [dictInsert_of_not_mem acc k v hk]
    rw [ih (acc ++ [(k, v)]) (by simpa [List.append_assoc] using h)]
    simp

theorem dictOfPairs_of_nodup (ps : List (String × ℚ)) (h : (ps.map Prod.fst).Nodup) :
    dictOfPairs ps = ps :=
  foldl_dictInsert_of_nodup ps [] (by simpa using h)

theorem mem_dictInsert_snd (d : List (String × ℚ)) (k : String) (v : ℚ)
    (q : String × ℚ) (h : q ∈ dictInsert d k v) : q.2 = v ∨ q ∈ d := by
  induction d with
  | nil =>
    simp only [dictInsert, List.mem_singleton] at h
    subst h
    exact Or.inl rfl
  | cons p rest ih =>
    obtain ⟨k0, v0⟩ := p
    rw [dictInsert] at h
    split at h
    · rcases List.mem_cons.1 h with he | hm
      · subst he; exact Or.inl rfl
      · exact Or.inr (List.mem_cons_of_mem _ hm)
    · rcases List.mem_cons.1 h with he | hm
      · subst he; exact Or.inr (List.mem_cons_self _ _)
      · rcases ih hm with h1 | h2
        · exact Or.inl h1
        · exact Or.inr (List.mem_cons_of_mem _ h2)

theorem mem_foldl_dictInsert_snd :
    ∀ (ps acc : List (String × ℚ)) (q : String × ℚ),
      q ∈ ps.foldl (fun d p => dictInsert d p.1 p.2) acc →
      q ∈ acc ∨ q.2 ∈ ps.map Prod.snd := by
  intro ps
  induction ps with
  | nil => intro acc q h; exact Or.inl h
  | cons p rest ih =>
    intro acc q h
    rw [List.foldl_cons] at h
    rcases ih _ q h with h1 | h2
    · rcases mem_dictInsert_snd acc p.1 p.2 q h1 with ha | hb
      · exact Or.inr (by simp [ha])
      · exact Or.inl hb
    · exact Or.inr (by rw [List.map_cons]; exact List.mem_cons_of_mem _ h2)

theorem mem_dictOfPairs_snd (ps : List (String × ℚ)) (q : String × ℚ)
    (h : q ∈ dictOfPairs ps) : q.2 ∈ ps.map Prod.snd := by
  rcases mem_foldl_dictInsert_snd ps [] q h with h1 | h2
  · simp at h1
  · exact h2

/-! ### Concrete inputs used by witnesses and counterexamples -/

/-- A concrete clock assigning timestamp 0 to every round record. -/
def clk : ℕ → ℚ := fun _ => 0

/-- The surplus pool of the negotiation scenario of spec §8 /
`tests/test_negotiation.py::test_balanced_negotiation`. -/
def poolC5 : SurplusPool :=
  { cluster_id := "c1", total_surplus := 1000, confidence_interval := (900, 1100),
    aggregated_vectors := [], task_ids := ["t1", "t2"] }

/-- Agent A of the scenario: high contribution, low leverage, high uncertainty. -/
def claimA : ContributionClaim :=
  { agent_id := "agent-A", cluster_id := "c1", marginal_impact_estimate := 800,
    uncertainty_margin := 200, dependency_influence_weight := 1/10, task_ids := ["t1"] }

/-- Agent B of the scenario: low contribution, high leverage, low uncertainty. -/
def claimB : ContributionClaim :=
  { agent_id := "agent-B", cluster_id := "c1", marginal_impact_estimate := 200,
    uncertainty_margin := 10, dependency_influence_weight := 9/10, task_ids := ["t2"] }

/-- The default engine configuration of `AutonomousNegotiationEngine.__init__`. -/
def engDefault : NegotiationEngine :=
  { max_iterations := 50, equilibrium_tolerance := 1/1000000, fairness_weight := 3/10 }

/-- The engine configuration used by `tests/test_negotiation.py` (`setUp`). -/
def engTest : NegotiationEngine :=
  { max_iterations := 100, equilibrium_tolerance := 1/10000000, fairness_weight := 3/10 }

/-! ### C2 -/

/-- C2: with an empty claims list or a non-positive total surplus,
`negotiate_splits` returns immediately (no loop round is recorded) with
`converged = true`, `rounds_to_convergence = 0`, an empty allocation map and
an empty history (and no `final_deviation` / `objective_targets` keys). -/
theorem C2_degenerate_immediate_return (engine : NegotiationEngine) (clock : ℕ → ℚ)
    (pool : SurplusPool) (claims : List ContributionClaim)
    (h : claims = [] ∨ pool.total_surplus ≤ 0) :
    negotiate_splits engine clock pool claims =
      { cluster_id := pool.cluster_id
        total_surplus := pool.total_surplus
        final_allocations := []
        rounds_to_convergence := 0
        converged := true
        final_deviation := none
        history := []
        objective_targets := none } := by
  unfold negotiate_splits
  rw [if_pos h]

/-- Witness for C2 at a concrete degenerate input (zero surplus, one claim). -/
theorem C2_degenerate_immediate_return_witness :
    ((SurplusPool.mk "c0" 0 (0, 0) [] []).total_surplus ≤ 0) ∧
      negotiate_splits engDefault clk (SurplusPool.mk "c0" 0 (0, 0) [] []) [claimA] =
        { cluster_id := "c0"
          total_surplus := 0
          final_allocations := []
          rounds_to_convergence := 0
          converged := true
          final_deviation := none
          history := []
          objective_targets := none } :=
  ⟨by norm_num, C2_degenerate_immediate_return engDefault clk _ [claimA] (Or.inr (by norm_num))⟩

/-! ### C4 -/

/-- C4: `negotiate_splits` runs at most `max_iterations` rounds; it converges
exactly when some iteration `i ≥ 1` below `max_iterations` stabilizes the
variance or drops the deviation below the tolerance; it stops at the first
such iteration, reporting `i + 1` recorded rounds; and when no such iteration
exists it reports `converged = false` after exactly `max_iterations` rounds. -/
theorem C4_convergence_semantics (engine : NegotiationEngine) (clock : ℕ → ℚ)
    (pool : SurplusPool) (claims : List ContributionClaim)
    (hne : claims ≠ []) (hs : 0 < pool.total_surplus) :
    (negotiate_splits engine clock pool claims).rounds_to_convergence ≤ engine.max_iterations ∧
    ((negotiate_splits engine clock pool claims).converged = true ↔
      ∃ i, 1 ≤ i ∧ i < engine.max_iterations ∧ (mkSession engine pool claims).condAt i) ∧
    (∀ i, 1 ≤ i → i < engine.max_iterations → (mkSession engine pool claims).condAt i →
      (∀ j, 1 ≤ j → j < i → ¬(mkSession engine pool claims).condAt j) →
      (negotiate_splits engine clock pool claims).rounds_to_convergence = i + 1 ∧
        (negotiate_splits engine clock pool claims).converged = true) ∧
    ((negotiate_splits engine clock pool claims).converged = false →
      (negotiate_splits engine clock pool claims).rounds_to_convergence =
        engine.max_iterations) := by
  have hdeg : ¬(claims = [] ∨ pool.total_surplus ≤ 0) := by
    rintro (h1 | h2)
    · exact hne h1
    · linarith
  rw [negotiate_splits_run engine clock pool claims (mkSession engine pool claims) rfl hdeg]
  refine ⟨?_, ?_, ?_, ?_⟩
  · cases hf : (mkSession engine pool claims).findConv 0 engine.max_iterations with
    | some i =>
      have := (mkSession engine pool claims).findConv_some_spec _ _ _ hf
      simp [SessionData.rounds, hf]
      omega
    | none => simp [SessionData.rounds, hf]
  · cases hf : (mkSession engine pool claims).findConv 0 engine.max_iterations with
    | some i =>
      have hspec := (mkSession engine pool claims).findConv_some_spec _ _ _ hf
      simp only [Option.isSome_some]
      constructor
      · intro _; exact ⟨i, by omega, by omega, hspec.2.2.2.1⟩
      · intro _; trivial
    | none =>
      have hnone := (mkSession engine pool claims).findConv_none_spec _ _ hf
      simp only [Option.isSome_none]
      constructor
      · intro hff; exact absurd hff (by simp)
      · rintro ⟨i, h1, h2, h3⟩
        exact absurd ⟨by omega, h3⟩ (hnone i (by omega) (by omega))
  · intro i h1 h2 h3 hmin
    cases hf : (mkSession engine pool claims).findConv 0 engine.max_iterations with
    | some i2 =>
      have hspec := (mkSession engine pool claims).findConv_some_spec _ _ _ hf
      have hii : i2 = i := by
        rcases Nat.lt_trichotomy i2 i with hlt | heq | hgt
        · exact absurd hspec.2.2.2.1 (hmin i2 (by omega) hlt)
        · exact heq
        · exact absurd ⟨by omega, h3⟩ (hspec.2.2.2.2 i (by omega) hgt)
      subst hii
      simp [SessionData.rounds, hf]
    | none =>
      have hnone := (mkSession engine pool claims).findConv_none_spec _ _ hf
      exact absurd ⟨by omega, h3⟩ (hnone i (by omega) (by omega))
  · intro hcv
    cases hf : (mkSession engine pool claims).findConv 0 engine.max_iterations with
    | some i2 => rw [hf] at hcv; simp at hcv
    | none => simp [SessionData.rounds, hf]

/-! ### C1 -/

/-- With pairwise-distinct agent ids, the values of the allocation dict built
from state `k` of the trajectory sum to within `n/20000` of the pool. -/
theorem rounded_allocations_sum_close (engine : NegotiationEngine) (pool : SurplusPool)
    (claims : List ContributionClaim) (hne : claims ≠ [])
    (hnodup : (claims.map (·.agent_id)).Nodup) (k : ℕ) :
    |(dictValues (dictOfPairs ((mkSession engine pool claims).ids.zip
        (((mkSession engine pool claims).traj k).map round4)))).sum -
      pool.total_surplus| ≤ (claims.length : ℚ) * (1/20000) := by
  have hn : (mkSession engine pool claims).n ≠ 0 := by
    simpa [mkSession] using List.length_pos.2 hne |>.ne'
  have hlen : ((mkSession engine pool claims).traj k).length =
      (mkSession engine pool claims).n :=
    (mkSession engine pool claims).traj_length
      (mkSession_velocities_length engine pool claims)
      (mkSession_targets_length engine pool claims) k
  have hlen2 : (mkSession engine pool claims).ids.length ≤
      (((mkSession engine pool claims).traj k).map round4).length := by
    rw [List.length_map, hlen, mkSession_ids_length]
  have hfst : (((mkSession engine pool claims).ids.zip
      (((mkSession engine pool claims).traj k).map round4)).map Prod.fst).Nodup := by
    rw [List.map_fst_zip _ _ hlen2]
    exact hnodup
  rw [dictOfPairs_of_nodup _ hfst]
  have hsnd : (((mkSession engine pool claims).ids.zip
      (((mkSession engine pool claims).traj k).map round4)).map Prod.snd) =
      ((mkSession engine pool claims).traj k).map round4 := by
    apply List.map_snd_zip
    rw [List.length_map, hlen, mkSession_ids_length]
  unfold dictValues
  rw [hsnd]
  have hsum : ((mkSession engine pool claims).traj k).sum = pool.total_surplus :=
    (mkSession engine pool claims).traj_sum hn k
  have hclose := sum_map_round4_close ((mkSession engine pool claims).traj k)
  rw [hsum, hlen] at hclose
  have hcast : ((mkSession engine pool claims).n : ℚ) = (claims.length : ℚ) := by
    simp [mkSession]
  rw [hcast] at hclose
  exact hclose

/-- C1 (amended): for a session with distinct agent ids, positive surplus and
non-empty claims, the unrounded allocation state sums to `total_surplus`
exactly at every step; the recorded (4-decimal rounded) per-round sums and the
final allocation sum are within `n/20000` of `total_surplus`; hence the
spec's `< 1e-3` bound holds whenever there are at most 19 agents. -/
theorem C1_round_sums_conserved (engine : NegotiationEngine) (clock : ℕ → ℚ)
    (pool : SurplusPool) (claims : List ContributionClaim)
    (hne : claims ≠ []) (hs : 0 < pool.total_surplus)
    (hnodup : (claims.map (·.agent_id)).Nodup) :
    (∀ k, ((mkSession engine pool claims).traj k).sum = pool.total_surplus) ∧
    (∀ rd ∈ (negotiate_splits engine clock pool claims).history,
      |(dictValues rd.allocations).sum - pool.total_surplus| ≤
        (claims.length : ℚ) * (1/20000)) ∧
    |(dictValues (negotiate_splits engine clock pool claims).final_allocations).sum -
        pool.total_surplus| ≤ (claims.length : ℚ) * (1/20000) ∧
    (claims.length ≤ 19 →
      (∀ rd ∈ (negotiate_splits engine clock pool claims).history,
        |(dictValues rd.allocations).sum - pool.total_surplus| < 1/1000) ∧
      |(dictValues (negotiate_splits engine clock pool claims).final_allocations).sum -
          pool.total_surplus| < 1/1000) := by
  have hn : (mkSession engine pool claims).n ≠ 0 := by
    simpa [mkSession] using List.length_pos.2 hne |>.ne'
  have hdeg : ¬(claims = [] ∨ pool.total_surplus ≤ 0) := by
    rintro (h1 | h2)
    · exact hne h1
    · linarith
  have hrun := negotiate_splits_run engine clock pool claims (mkSession engine pool claims) rfl hdeg
  have hhist : ∀ rd ∈ (negotiate_splits engine clock pool claims).history,
      |(dictValues rd.allocations).sum - pool.total_surplus| ≤
        (claims.length : ℚ) * (1/20000) := by
    intro rd hrd
    rw [hrun] at hrd
    simp only [List.mem_map] at hrd
    obtain ⟨j, _, hj⟩ := hrd
    have : rd.allocations = dictOfPairs ((mkSession engine pool claims).ids.zip
        (((mkSession engine pool claims).traj (j + 1)).map round4)) := by
      rw [← hj]; rfl
    rw [this]
    exact rounded_allocations_sum_close engine pool claims hne hnodup (j + 1)
  have hfin : |(dictValues (negotiate_splits engine clock pool claims).final_allocations).sum -
      pool.total_surplus| ≤ (claims.length : ℚ) * (1/20000) := by
    rw [hrun]
    exact rounded_allocations_sum_close engine pool claims hne hnodup _
  refine ⟨fun k => (mkSession engine pool claims).traj_sum hn k, hhist, hfin, fun h19 => ⟨?_, ?_⟩⟩
  · intro rd hrd
    have hb := hhist rd hrd
    have : (claims.length : ℚ) ≤ 19 := by exact_mod_cast h19
    linarith
  · have : (claims.length : ℚ) ≤ 19 := by exact_mod_cast h19
    linarith

/-- Witness for C1 at the concrete two-agent scenario. -/
theorem C1_round_sums_conserved_witness :
    ([claimA, claimB] ≠ [] ∧ (0:ℚ) < poolC5.total_surplus ∧
      ([claimA, claimB].map (·.agent_id)).Nodup) ∧
      ((∀ k, ((mkSession engDefault poolC5 [claimA, claimB]).traj k).sum =
          poolC5.total_surplus) ∧
      (∀ rd ∈ (negotiate_splits engDefault clk poolC5 [claimA, claimB]).history,
        |(dictValues rd.allocations).sum - poolC5.total_surplus| ≤
          (([claimA, claimB].length : ℕ) : ℚ) * (1/20000)) ∧
      |(dictValues (negotiate_splits engDefault clk poolC5 [claimA, claimB]).final_allocations).sum -
          poolC5.total_surplus| ≤ (([claimA, claimB].length : ℕ) : ℚ) * (1/20000) ∧
      ([claimA, claimB].length ≤ 19 →
        (∀ rd ∈ (negotiate_splits engDefault clk poolC5 [claimA, claimB]).history,
          |(dictValues rd.allocations).sum - poolC5.total_surplus| < 1/1000) ∧
        |(dictValues (negotiate_splits engDefault clk poolC5 [claimA, claimB]).final_allocations).sum -
            poolC5.total_surplus| < 1/1000)) :=
  ⟨⟨by decide, by norm_num [poolC5], by decide⟩,
    C1_round_sums_conserved engDefault clk poolC5 [claimA, claimB]
      (by decide) (by norm_num [poolC5]) (by decide)⟩

/-- A 21-agent session with a tiny pool: every per-agent allocation rounds to
0, so the recorded sums miss `total_surplus` by more than the spec's 1e-3. -/
def mkTinyClaim (i : ℕ) : ContributionClaim :=
  { agent_id := "a" ++ toString i, cluster_id := "c21", marginal_impact_estimate := 1,
    uncertainty_margin := 1, dependency_influence_weight := 1/2, task_ids := [] }

/-- Twenty-one identical tiny claims with pairwise-distinct agent ids. -/
def claims21 : List ContributionClaim := (List.range 21).map mkTinyClaim

/-- A pool whose equal split is 0.000049 per agent. -/
def pool21 : SurplusPool :=
  { cluster_id := "c21", total_surplus := 1029/1000000, confidence_interval := (0, 0),
    aggregated_vectors := [], task_ids := [] }

/-- Counterexample to C1 as stated: with 21 agents the recorded final
allocation sum misses `total_surplus` by 1.029e-3 ≥ 1e-3. -/
theorem C1_counterexample_21_agents :
    0 < pool21.total_surplus ∧ claims21 ≠ [] ∧
      ((claims21.map (·.agent_id)).Nodup ∧
        ¬(|(dictValues (negotiate_splits engDefault clk pool21 claims21).final_allocations).sum -
            pool21.total_surplus| < 1/1000)) := by decide

/-! ### C3 -/

theorem zipWith_fixed_of_targets_eq :
    ∀ (vts : List (ℚ × ℚ)) (n : ℕ) (e : ℚ), vts.length = n → (∀ p ∈ vts, p.2 = e) →
      List.zipWith (fun vt c => c + vt.1 * (vt.2 - c)) vts (List.replicate n e) =
        List.replicate n e := by
  intro vts
  induction vts with
  | nil =>
    intro n e hl _
    rw [← hl]
    simp
  | cons p rest ih =>
    intro n e hl hall
    cases n with
    | zero => simp at hl
    | succ m =>
      rw [List.replicate_succ, List.zipWith_cons_cons]
      have hp : p.2 = e := hall p (List.mem_cons_self _ _)
      have hhead : e + p.1 * (p.2 - e) = e := by rw [hp]; ring
      rw [hhead, ih m e (by simpa using hl) (fun q hq => hall q (List.mem_cons_of_mem _ hq))]

theorem targets_eq_of_fairness_one (engine : NegotiationEngine) (pool : SurplusPool)
    (claims : List ContributionClaim) (hfw : engine.fairness_weight = 1) :
    ∀ t ∈ (mkSession engine pool claims).targets,
      t = pool.total_surplus / (claims.length : ℚ) := by
  intro t ht
  simp only [mkSession, objectiveTargets, List.mem_map] at ht
  obtain ⟨mt, _, hmt⟩ := ht
  rw [← hmt, hfw]
  ring

/-- With `fairness_weight = 1` every state of the trajectory is the uniform
equal split. -/
theorem traj_const_of_fairness_one (engine : NegotiationEngine) (pool : SurplusPool)
    (claims : List ContributionClaim) (hfw : engine.fairness_weight = 1)
    (hne : claims ≠ []) (hs : 0 < pool.total_surplus) :
    ∀ k, (mkSession engine pool claims).traj k =
      List.replicate claims.length (pool.total_surplus / (claims.length : ℚ)) := by
  have hn0 : claims.length ≠ 0 := fun h => hne (List.length_eq_zero.1 h)
  have hnq : ((claims.length : ℚ)) ≠ 0 := by exact_mod_cast hn0
  intro k
  induction k with
  | zero =>
    show List.replicate (mkSession engine pool claims).n
        ((mkSession engine pool claims).s / ((mkSession engine pool claims).n : ℚ)) = _
    simp [mkSession]
  | succ k ih =>
    show (mkSession engine pool claims).step ((mkSession engine pool claims).traj k) = _
    rw [ih]
    unfold SessionData.step
    dsimp only
    have hz : List.zipWith (fun vt c => c + vt.1 * (vt.2 - c))
        ((mkSession engine pool claims).velocities.zip (mkSession engine pool claims).targets)
        (List.replicate claims.length (pool.total_surplus / (claims.length : ℚ))) =
        List.replicate claims.length (pool.total_surplus / (claims.length : ℚ)) := by
      apply zipWith_fixed_of_targets_eq
      · rw [List.length_zip, mkSession_velocities_length, mkSession_targets_length]
        simp [mkSession]
      · intro p hp
        obtain ⟨pv, pt⟩ := p
        exact targets_eq_of_fairness_one engine pool claims hfw pt (List.of_mem_zip hp).2
    rw [hz]
    have hsum : (List.replicate claims.length
        (pool.total_surplus / (claims.length : ℚ))).sum = pool.total_surplus := by
      rw [List.sum_replicate, nsmul_eq_mul]
      field_simp
    rw [hsum, if_pos hs, List.map_replicate]
    have hss : (mkSession engine pool claims).s = pool.total_surplus := rfl
    rw [hss]
    congr 1
    field_simp
    ring

/-- C3 (amended): with `fairness_weight = 1`, every returned final allocation
equals `round4 (total_surplus / n)` — the equal split up to the engine's
4-decimal output rounding — regardless of the content of the claims. -/
theorem C3_fairness_one_equal_split (engine : NegotiationEngine) (clock : ℕ → ℚ)
    (pool : SurplusPool) (claims : List ContributionClaim)
    (hfw : engine.fairness_weight = 1) (hne : claims ≠ []) (hs : 0 < pool.total_surplus) :
    ∀ q ∈ (negotiate_splits engine clock pool claims).final_allocations,
      q.2 = round4 (pool.total_surplus / (claims.length : ℚ)) := by
  have hdeg : ¬(claims = [] ∨ pool.total_surplus ≤ 0) := by
    rintro (h1 | h2)
    · exact hne h1
    · linarith
  rw [negotiate_splits_run engine clock pool claims (mkSession engine pool claims) rfl hdeg]
  intro q hq
  dsimp only at hq
  have h2 := mem_dictOfPairs_snd _ _ hq
  simp only [List.mem_map] at h2
  obtain ⟨pr, hpr, hq2⟩ := h2
  obtain ⟨k0, v0⟩ := pr
  have hv := (List.of_mem_zip hpr).2
  rw [traj_const_of_fairness_one engine pool claims hfw hne hs, List.map_replicate] at hv
  rw [← hq2]
  exact List.eq_of_mem_replicate hv

/-- Engine with full fairness weight (`fairness_weight = 1`). -/
def engFair : NegotiationEngine :=
  { max_iterations := 50, equilibrium_tolerance := 1/1000000, fairness_weight := 1 }

/-- A three-agent pool whose equal split `1000/3` is not a 4-decimal number. -/
def pool3 : SurplusPool :=
  { cluster_id := "c3", total_surplus := 1000, confidence_interval := (0, 0),
    aggregated_vectors := [], task_ids := [] }

/-- Three claims with distinct ids and differing content. -/
def claimsABC : List ContributionClaim :=
  [{ agent_id := "A", cluster_id := "c3", marginal_impact_estimate := 500,
     uncertainty_margin := 10, dependency_influence_weight := 1/2, task_ids := [] },
   { agent_id := "B", cluster_id := "c3", marginal_impact_estimate := 300,
     uncertainty_margin := 10, dependency_influence_weight := 1/2, task_ids := [] },
   { agent_id := "C", cluster_id := "c3", marginal_impact_estimate := 100,
     uncertainty_margin := 10, dependency_influence_weight := 1/2, task_ids := [] }]

/-- Counterexample to C3 as stated: with `fairness_weight = 1` and
`total_surplus = 1000` over 3 agents, the returned allocation is the rounded
value 333.3333, which is not `1000/3`. -/
theorem C3_counterexample_rounding :
    engFair.fairness_weight = 1 ∧ 0 < pool3.total_surplus ∧
      dictGet (negotiate_splits engFair clk pool3 claimsABC).final_allocations "A" =
        some (3333333/10000) ∧
      (3333333/10000 : ℚ) ≠ pool3.total_surplus / (claimsABC.length : ℚ) := by decide

/-- Witness for C3 at the concrete three-agent input. -/
theorem C3_fairness_one_equal_split_witness :
    (engFair.fairness_weight = 1 ∧ claimsABC ≠ [] ∧ 0 < pool3.total_surplus) ∧
      ∀ q ∈ (negotiate_splits engFair clk pool3 claimsABC).final_allocations,
        q.2 = round4 (pool3.total_surplus / (claimsABC.length : ℚ)) :=
  ⟨⟨rfl, by decide, by norm_num [pool3]⟩,
    C3_fairness_one_equal_split engFair clk pool3 claimsABC rfl (by decide)
      (by norm_num [pool3])⟩

/-! ### C10 -/

theorem claimVelocity_bounds (c : ContributionClaim) :
    1/20 ≤ claimVelocity c ∧ claimVelocity c ≤ 3/5 := by
  unfold claimVelocity qmax qmin
  by_cases h1 : (3:ℚ)/5 ≤ 1/4 * (1 + claimFlexibility c - 2/5 * c.dependency_influence_weight)
  · rw [if_pos h1]
    norm_num
  · rw [if_neg h1]
    by_cases h2 : (1:ℚ)/20 ≤ 1/4 * (1 + claimFlexibility c - 2/5 * c.dependency_influence_weight)
    · rw [if_pos h2]
      exact ⟨h2, by linarith⟩
    · rw [if_neg h2]
      norm_num

theorem marginalTargets_nonneg (claims : List ContributionClaim) (s : ℚ) (hs : 0 ≤ s)
    (hm : ∀ c ∈ claims, 0 ≤ c.marginal_impact_estimate) :
    ∀ t ∈ marginalTargets claims s, 0 ≤ t := by
  intro t ht
  unfold marginalTargets at ht
  dsimp only at ht
  split at ht
  · rename_i hpos
    simp only [List.mem_map] at ht
    obtain ⟨m, hmem, hmt⟩ := ht
    obtain ⟨c, hc, hcm⟩ := hmem
    rw [← hmt]
    have h0 : 0 ≤ m := by rw [← hcm]; exact hm c hc
    exact mul_nonneg (div_nonneg h0 (le_of_lt hpos)) hs
  · have := List.eq_of_mem_replicate ht
    rw [this]
    exact div_nonneg hs (Nat.cast_nonneg _)

theorem objectiveTargets_nonneg (fw : ℚ) (claims : List ContributionClaim) (s : ℚ)
    (hs : 0 ≤ s) (hm : ∀ c ∈ claims, 0 ≤ c.marginal_impact_estimate)
    (hfw0 : 0 ≤ fw) (hfw1 : fw ≤ 1) :
    ∀ t ∈ objectiveTargets fw claims s, 0 ≤ t := by
  intro t ht
  unfold objectiveTargets at ht
  simp only [List.mem_map] at ht
  obtain ⟨mt, hmem, hmt⟩ := ht
  have h1 : 0 ≤ mt := marginalTargets_nonneg claims s hs hm mt hmem
  have h2 : (0:ℚ) ≤ s / (claims.length : ℚ) := div_nonneg hs (Nat.cast_nonneg _)
  rw [← hmt]
  have h3 : (0:ℚ) ≤ 1 - fw := by linarith
  exact add_nonneg (mul_nonneg h3 h1) (mul_nonneg hfw0 h2)

theorem zipWith_update_nonneg :
    ∀ (vts : List (ℚ × ℚ)) (cur : List ℚ),
      (∀ p ∈ vts, 1/20 ≤ p.1 ∧ p.1 ≤ 3/5 ∧ 0 ≤ p.2) → (∀ c ∈ cur, 0 ≤ c) →
      ∀ x ∈ List.zipWith (fun vt c => c + vt.1 * (vt.2 - c)) vts cur, 0 ≤ x := by
  intro vts
  induction vts with
  | nil => intro cur _ _ x hx; simp at hx
  | cons p rest ih =>
    intro cur hv hc x hx
    cases cur with
    | nil => simp at hx
    | cons c cs =>
      rw [List.zipWith_cons_cons] at hx
      rcases List.mem_cons.1 hx with he | hmem
      · subst he
        obtain ⟨h1, h2, h3⟩ := hv p (List.mem_cons_self _ _)
        have hc0 : 0 ≤ c := hc c (List.mem_cons_self _ _)
        have hp1 : (0:ℚ) ≤ (1 - p.1) * c := mul_nonneg (by linarith) hc0
        have hp2 : (0:ℚ) ≤ p.1 * p.2 := mul_nonneg (by linarith) h3
        nlinarith
      · exact ih cs (fun q hq => hv q (List.mem_cons_of_mem _ hq))
          (fun q hq => hc q (List.mem_cons_of_mem _ hq)) x hmem

theorem SessionData.step_nonneg (sd : SessionData) (hs : 0 < sd.s)
    (htg : ∀ t ∈ sd.targets, 0 ≤ t)
    (hvel : ∀ v ∈ sd.velocities, 1/20 ≤ v ∧ v ≤ 3/5)
    (cur : List ℚ) (hcur : ∀ c ∈ cur, 0 ≤ c) :
    ∀ x ∈ sd.step cur, 0 ≤ x := by
  intro x hx
  unfold SessionData.step at hx
  dsimp only at hx
  split at hx
  · rename_i hpos
    simp only [List.mem_map] at hx
    obtain ⟨v, hv, hvx⟩ := hx
    have h0 : 0 ≤ v := by
      refine zipWith_update_nonneg _ cur ?_ hcur v hv
      intro p hp
      obtain ⟨pv, pt⟩ := p
      obtain ⟨h1, h2⟩ := List.of_mem_zip hp
      exact ⟨(hvel pv h1).1, (hvel pv h1).2, htg pt h2⟩
    rw [← hvx]
    exact mul_nonneg (div_nonneg h0 (le_of_lt hpos)) (le_of_lt hs)
  · have := List.eq_of_mem_replicate hx
    rw [this]
    exact div_nonneg (le_of_lt hs) (Nat.cast_nonneg _)

theorem mkSession_traj_nonneg (engine : NegotiationEngine) (pool : SurplusPool)
    (claims : List ContributionClaim) (hs : 0 < pool.total_surplus)
    (hm : ∀ c ∈ claims, 0 ≤ c.marginal_impact_estimate)
    (hfw0 : 0 ≤ engine.fairness_weight) (hfw1 : engine.fairness_weight ≤ 1) :
    ∀ k, ∀ x ∈ (mkSession engine pool claims).traj k, 0 ≤ x := by
  have hss : (mkSession engine pool claims).s = pool.total_surplus := rfl
  have htg : ∀ t ∈ (mkSession engine pool claims).targets, 0 ≤ t := by
    intro t ht
    exact objectiveTargets_nonneg engine.fairness_weight claims pool.total_surplus
      (le_of_lt hs) hm hfw0 hfw1 t ht
  have hvel : ∀ v ∈ (mkSession engine pool claims).velocities, 1/20 ≤ v ∧ v ≤ 3/5 := by
    intro v hv
    simp only [mkSession, List.mem_map] at hv
    obtain ⟨c, _, hc⟩ := hv
    rw [← hc]
    exact claimVelocity_bounds c
  intro k
  induction k with
  | zero =>
    intro x hx
    rw [SessionData.traj] at hx
    have := List.eq_of_mem_replicate hx
    rw [this, hss]
    exact div_nonneg (le_of_lt hs) (Nat.cast_nonneg _)
  | succ k ih =>
    intro x hx
    exact (mkSession engine pool claims).step_nonneg (by rw [hss]; exact hs) htg hvel
      ((mkSession engine pool claims).traj k) ih x hx

/-- Values of an allocation dict built from a nonnegative trajectory state
are nonnegative. -/
theorem dict_of_traj_nonneg (engine : NegotiationEngine) (pool : SurplusPool)
    (claims : List ContributionClaim) (k : ℕ)
    (htraj : ∀ x ∈ (mkSession engine pool claims).traj k, 0 ≤ x) :
    ∀ q ∈ dictOfPairs ((mkSession engine pool claims).ids.zip
      (((mkSession engine pool claims).traj k).map round4)), 0 ≤ q.2 := by
  intro q hq
  have h2 := mem_dictOfPairs_snd _ _ hq
  simp only [List.mem_map] at h2
  obtain ⟨pr, hpr, hq2⟩ := h2
  obtain ⟨k0, v0⟩ := pr
  have hv := (List.of_mem_zip hpr).2
  simp only [List.mem_map] at hv
  obtain ⟨x, hx, hxv⟩ := hv
  rw [← hq2]
  dsimp only
  rw [← hxv]
  exact round4_nonneg x (htraj x hx)

/-- C10: with nonnegative marginal estimates, positive surplus and
`fairness_weight` in `[0,1]`, no allocation is ever negative: every state of
the trajectory, every recorded round allocation and every final allocation
is `≥ 0`. -/
theorem C10_allocations_nonneg (engine : NegotiationEngine) (clock : ℕ → ℚ)
    (pool : SurplusPool) (claims : List ContributionClaim)
    (hne : claims ≠ []) (hs : 0 < pool.total_surplus)
    (hm : ∀ c ∈ claims, 0 ≤ c.marginal_impact_estimate)
    (hfw0 : 0 ≤ engine.fairness_weight) (hfw1 : engine.fairness_weight ≤ 1) :
    (∀ k, ∀ x ∈ (mkSession engine pool claims).traj k, 0 ≤ x) ∧
    (∀ rd ∈ (negotiate_splits engine clock pool claims).history,
      ∀ q ∈ rd.allocations, 0 ≤ q.2) ∧
    (∀ q ∈ (negotiate_splits engine clock pool claims).final_allocations, 0 ≤ q.2) := by
  have htraj := mkSession_traj_nonneg engine pool claims hs hm hfw0 hfw1
  have hdeg : ¬(claims = [] ∨ pool.total_surplus ≤ 0) := by
    rintro (h1 | h2)
    · exact hne h1
    · linarith
  have hrun := negotiate_splits_run engine clock pool claims (mkSession engine pool claims) rfl hdeg
  refine ⟨htraj, ?_, ?_⟩
  · intro rd hrd
    rw [hrun] at hrd
    simp only [List.mem_map] at hrd
    obtain ⟨j, _, hj⟩ := hrd
    have : rd.allocations = dictOfPairs ((mkSession engine pool claims).ids.zip
        (((mkSession engine pool claims).traj (j + 1)).map round4)) := by
      rw [← hj]; rfl
    rw [this]
    exact dict_of_traj_nonneg engine pool claims (j + 1) (htraj (j + 1))
  · rw [hrun]
    exact dict_of_traj_nonneg engine pool claims _ (htraj _)

/-- Witness for C10 at the concrete two-agent scenario. -/
theorem C10_allocations_nonneg_witness :
    ([claimA, claimB] ≠ [] ∧ (0:ℚ) < poolC5.total_surplus ∧
      (∀ c ∈ [claimA, claimB], 0 ≤ c.marginal_impact_estimate) ∧
      0 ≤ engDefault.fairness_weight ∧ engDefault.fairness_weight ≤ 1) ∧
      ((∀ k, ∀ x ∈ (mkSession engDefault poolC5 [claimA, claimB]).traj k, 0 ≤ x) ∧
      (∀ rd ∈ (negotiate_splits engDefault clk poolC5 [claimA, claimB]).history,
        ∀ q ∈ rd.allocations, 0 ≤ q.2) ∧
      (∀ q ∈ (negotiate_splits engDefault clk poolC5 [claimA, claimB]).final_allocations,
        0 ≤ q.2)) :=
  ⟨⟨by decide, by norm_num [poolC5], by decide, by norm_num [engDefault], by norm_num [engDefault]⟩,
    C10_allocations_nonneg engDefault clk poolC5 [claimA, claimB] (by decide)
      (by norm_num [poolC5]) (by decide) (by norm_num [engDefault]) (by norm_num [engDefault])⟩

/-! ### C5 -/

/-- Counterexample to C5 as stated: with the DEFAULT engine configuration
(`max_iterations = 50`, `equilibrium_tolerance = 1e-6`) the 800/200 scenario
does NOT converge: `converged = false` after all 50 rounds. -/
theorem C5_counterexample_default_config :
    (negotiate_splits engDefault clk poolC5 [claimA, claimB]).converged = false ∧
      (negotiate_splits engDefault clk poolC5 [claimA, claimB]).rounds_to_convergence = 50 := by
  decide

/-- C5 (amended): with the configuration the repository test actually uses
(`max_iterations = 100`, `equilibrium_tolerance = 1e-7`, `fairness_weight =
0.3`), the scenario converges and the final allocations are (after the
engine's 4-decimal rounding) exactly 710 and 290 — within ±1 of 710/290. -/
theorem C5_test_config_converges :
    (negotiate_splits engTest clk poolC5 [claimA, claimB]).converged = true ∧
      dictGet (negotiate_splits engTest clk poolC5 [claimA, claimB]).final_allocations
        "agent-A" = some 710 ∧
      dictGet (negotiate_splits engTest clk poolC5 [claimA, claimB]).final_allocations
        "agent-B" = some 290 := by
  decide

/-! ### C8 -/

theorem dictGet_dictInsert (d : List (String × ℚ)) (k0 : String) (v : ℚ) (k : String) :
    dictGet (dictInsert d k0 v) k = if k = k0 then some v else dictGet d k := by
  induction d with
  | nil =>
    simp only [dictInsert, dictGet]
    by_cases h : k0 = k
    · rw [if_pos h, if_pos h.symm]
    · rw [if_neg h, if_neg (fun hh => h hh.symm)]
  | cons p rest ih =>
    obtain ⟨k1, v1⟩ := p
    rw [dictInsert]
    by_cases h1 : k1 = k0
    · subst h1
      rw [if_pos rfl]
      simp only [dictGet]
      by_cases h : k1 = k
      · rw [if_pos h, if_pos h.symm]
      · rw [if_neg h, if_neg (fun hh => h hh.symm), if_neg h]
    · rw [if_neg h1]
      simp only [dictGet]
      rw [ih]
      by_cases h2 : k1 = k
      · subst h2
        rw [if_pos rfl, if_neg h1, if_pos rfl]
      · rw [if_neg h2, if_neg h2]

theorem dictGet_append (l1 l2 : List (String × ℚ)) (k : String) :
    dictGet (l1 ++ l2) k = (dictGet l1 k).or (dictGet l2 k) := by
  induction l1 with
  | nil => simp [dictGet]
  | cons p rest ih =>
    obtain ⟨k1, v1⟩ := p
    rw [List.cons_append, dictGet, dictGet]
    by_cases h : k1 = k
    · rw [if_pos h, if_pos h]
      rfl
    · rw [if_neg h, if_neg h, ih]

theorem dictGet_foldl_dictInsert :
    ∀ (ps acc : List (String × ℚ)) (k : String),
      dictGet (ps.foldl (fun d p => dictInsert d p.1 p.2) acc) k =
        (dictGet ps.reverse k).or (dictGet acc k) := by
  intro ps
  induction ps with
  | nil => intro acc k; simp [dictGet]
  | cons p rest ih =>
    intro acc k
    obtain ⟨k1, v1⟩ := p
    rw [List.foldl_cons]
    dsimp only
    rw [ih, dictGet_dictInsert, List.reverse_cons, dictGet_append]
    cases hrev : dictGet rest.reverse k with
    | some a => rfl
    | none =>
      simp only [Option.none_or]
      by_cases h : k = k1
      · subst h
        rw [if_pos rfl, dictGet, if_pos rfl]
        rfl
      · rw [if_neg h, dictGet, if_neg (fun hh => h hh.symm)]
        simp [dictGet]

/-- A Python dict lookup returns the value of the LAST inserted pair with the
given key: looking up the built dict equals first-match lookup on the
reversed insertion list. -/
theorem dictGet_dictOfPairs (ps : List (String × ℚ)) (k : String) :
    dictGet (dictOfPairs ps) k = dictGet ps.reverse k := by
  rw [dictOfPairs, dictGet_foldl_dictInsert]
  simp [dictGet]

/-- C8: duplicate agent ids raise no error (the computation is total) and the
returned `final_allocations` and `objective_targets` maps hold, for every
agent id, exactly the value computed for the LAST claim bearing that id:
dict lookup coincides with first-match lookup over the reversed per-claim
value list. -/
theorem C8_duplicate_ids_last_claim_wins (engine : NegotiationEngine) (clock : ℕ → ℚ)
    (pool : SurplusPool) (claims : List ContributionClaim)
    (hne : claims ≠ []) (hs : 0 < pool.total_surplus) :
    (∀ a, dictGet (negotiate_splits engine clock pool claims).final_allocations a =
      dictGet (((mkSession engine pool claims).ids.zip
        (((mkSession engine pool claims).traj
          ((mkSession engine pool claims).rounds engine.max_iterations)).map round4)).reverse) a) ∧
    (negotiate_splits engine clock pool claims).objective_targets =
      some (dictOfPairs ((mkSession engine pool claims).ids.zip
        ((mkSession engine pool claims).targets.map round4))) ∧
    (∀ a, dictGet (dictOfPairs ((mkSession engine pool claims).ids.zip
        ((mkSession engine pool claims).targets.map round4))) a =
      dictGet (((mkSession engine pool claims).ids.zip
        ((mkSession engine pool claims).targets.map round4)).reverse) a) := by
  have hdeg : ¬(claims = [] ∨ pool.total_surplus ≤ 0) := by
    rintro (h1 | h2)
    · exact hne h1
    · linarith
  have hrun := negotiate_splits_run engine clock pool claims (mkSession engine pool claims) rfl hdeg
  refine ⟨?_, ?_, ?_⟩
  · intro a
    rw [hrun]
    exact dictGet_dictOfPairs _ a
  · rw [hrun]
  · intro a
    exact dictGet_dictOfPairs _ a

/-- Two claims sharing the id "X": the first reports marginal 800, the second
marginal 200. -/
def claimX1 : ContributionClaim :=
  { agent_id := "X", cluster_id := "c1", marginal_impact_estimate := 800,
    uncertainty_margin := 200, dependency_influence_weight := 1/10, task_ids := [] }

/-- Second claim with the duplicated id "X". -/
def claimX2 : ContributionClaim :=
  { agent_id := "X", cluster_id := "c1", marginal_impact_estimate := 200,
    uncertainty_margin := 10, dependency_influence_weight := 9/10, task_ids := [] }

/-- Witness for C8 at a concrete input with a duplicated agent id. -/
theorem C8_duplicate_ids_last_claim_wins_witness :
    ([claimX1, claimX2] ≠ [] ∧ (0:ℚ) < poolC5.total_surplus) ∧
      ((∀ a, dictGet (negotiate_splits engDefault clk poolC5 [claimX1, claimX2]).final_allocations a =
        dictGet (((mkSession engDefault poolC5 [claimX1, claimX2]).ids.zip
          (((mkSession engDefault poolC5 [claimX1, claimX2]).traj
            ((mkSession engDefault poolC5 [claimX1, claimX2]).rounds
              engDefault.max_iterations)).map round4)).reverse) a) ∧
      (negotiate_splits engDefault clk poolC5 [claimX1, claimX2]).objective_targets =
        some (dictOfPairs ((mkSession engDefault poolC5 [claimX1, claimX2]).ids.zip
          ((mkSession engDefault poolC5 [claimX1, claimX2]).targets.map round4))) ∧
      (∀ a, dictGet (dictOfPairs ((mkSession engDefault poolC5 [claimX1, claimX2]).ids.zip
          ((mkSession engDefault poolC5 [claimX1, claimX2]).targets.map round4))) a =
        dictGet (((mkSession engDefault poolC5 [claimX1, claimX2]).ids.zip
          ((mkSession engDefault poolC5 [claimX1, claimX2]).targets.map round4)).reverse) a)) :=
  ⟨⟨by decide, by norm_num [poolC5]⟩,
    C8_duplicate_ids_last_claim_wins engDefault clk poolC5 [claimX1, claimX2]
      (by decide) (by norm_num [poolC5])⟩

/-! ### C9 -/

/-- A negotiation round with its wall-clock timestamp erased. -/
def stripTimestamp (rd : NegotiationRound) : ℕ × List (String × ℚ) × ℚ × ℚ :=
  (rd.round_number, rd.allocations, rd.deviation_from_objective, rd.allocation_variance)

/-- C9 (amended): for a fixed configuration, two calls on identical pool and
claims agree on every output component except the wall-clock timestamps
inside the round history: `final_allocations`, `rounds_to_convergence`,
`converged`, `final_deviation`, `objective_targets` are equal, and the
histories are equal after erasing timestamps. -/
theorem C9_deterministic_up_to_timestamps (engine : NegotiationEngine)
    (pool : SurplusPool) (claims : List ContributionClaim) (clock1 clock2 : ℕ → ℚ) :
    (negotiate_splits engine clock1 pool claims).final_allocations =
      (negotiate_splits engine clock2 pool claims).final_allocations ∧
    (negotiate_splits engine clock1 pool claims).rounds_to_convergence =
      (negotiate_splits engine clock2 pool claims).rounds_to_convergence ∧
    (negotiate_splits engine clock1 pool claims).converged =
      (negotiate_splits engine clock2 pool claims).converged ∧
    (negotiate_splits engine clock1 pool claims).final_deviation =
      (negotiate_splits engine clock2 pool claims).final_deviation ∧
    (negotiate_splits engine clock1 pool claims).objective_targets =
      (negotiate_splits engine clock2 pool claims).objective_targets ∧
    (negotiate_splits engine clock1 pool claims).history.map stripTimestamp =
      (negotiate_splits engine clock2 pool claims).history.map stripTimestamp := by
  by_cases hdeg : claims = [] ∨ pool.total_surplus ≤ 0
  · unfold negotiate_splits
    rw [if_pos hdeg, if_pos hdeg]
    exact ⟨rfl, rfl, rfl, rfl, rfl, rfl⟩
  · rw [negotiate_splits_run engine clock1 pool claims (mkSession engine pool claims) rfl hdeg,
      negotiate_splits_run engine clock2 pool claims (mkSession engine pool claims) rfl hdeg]
    refine ⟨rfl, rfl, rfl, rfl, rfl, ?_⟩
    dsimp only
    rw [List.map_map, List.map_map]
    rfl

/-- Counterexample to C9 as stated: the full result records of two calls at
identical pool/claims differ when the wall clock differs, because each
recorded round embeds a `time.time()` timestamp. -/
def clkOne : ℕ → ℚ := fun _ => 1

/-- The two runs differ (in their history timestamps), refuting strict
result equality. -/
theorem C9_counterexample_timestamps :
    negotiate_splits engFair clk pool3 claimsABC ≠
      negotiate_splits engFair clkOne pool3 claimsABC := by
  decide

/-! ### C4 -/

/-- Witness for C4 at the concrete two-agent scenario with the default
engine configuration. -/
theorem C4_convergence_semantics_witness :
    ([claimA, claimB] ≠ [] ∧ (0:ℚ) < poolC5.total_surplus) ∧
      ((negotiate_splits engDefault clk poolC5 [claimA, claimB]).rounds_to_convergence ≤
          engDefault.max_iterations ∧
        ((negotiate_splits engDefault clk poolC5 [claimA, claimB]).converged = true ↔
          ∃ i, 1 ≤ i ∧ i < engDefault.max_iterations ∧
            (mkSession engDefault poolC5 [claimA, claimB]).condAt i) ∧
        (∀ i, 1 ≤ i → i < engDefault.max_iterations →
          (mkSession engDefault poolC5 [claimA, claimB]).condAt i →
          (∀ j, 1 ≤ j → j < i → ¬(mkSession engDefault poolC5 [claimA, claimB]).condAt j) →
          (negotiate_splits engDefault clk poolC5 [claimA, claimB]).rounds_to_convergence = i + 1 ∧
            (negotiate_splits engDefault clk poolC5 [claimA, claimB]).converged = true) ∧
        ((negotiate_splits engDefault clk poolC5 [claimA, claimB]).converged = false →
          (negotiate_splits engDefault clk poolC5 [claimA, claimB]).rounds_to_convergence =
            engDefault.max_iterations)) :=
  ⟨⟨by decide, by norm_num [poolC5]⟩,
    C4_convergence_semantics engDefault clk poolC5 [claimA, claimB] (by decide) (by norm_num [poolC5])⟩

/-! ### C6: ImpactVector validation (src/models/impact.py, __post_init__) -/

/-- Model of a Python float where the IEEE special values matter: a finite
value (exact rational), NaN, or a signed infinity. -/
inductive PFloat where
  | fin (q : ℚ)
  | nan
  | pinf
  | ninf
deriving Repr, DecidableEq

/-- `math.isnan`. -/
def PFloat.isnan : PFloat → Bool
  | .nan => true
  | _ => false

/-- `math.isinf`. -/
def PFloat.isinf : PFloat → Bool
  | .pinf => true
  | .ninf => true
  | _ => false

/-- Python `<` on floats: NaN is incomparable to everything. -/
def PFloat.lt : PFloat → PFloat → Bool
  | .fin a, .fin b => a < b
  | .fin _, .pinf => true
  | .ninf, .fin _ => true
  | .ninf, .pinf => true
  | _, _ => false

/-- Python `<=` on floats: NaN is incomparable to everything. -/
def PFloat.le : PFloat → PFloat → Bool
  | .fin a, .fin b => a ≤ b
  | .fin _, .pinf => true
  | .ninf, .fin _ => true
  | .ninf, .pinf => true
  | .pinf, .pinf => true
  | .ninf, .ninf => true
  | _, _ => false

/-- `src/models/impact.py` `ImpactCategory`. -/
inductive ImpactCategory where
  | revenue
  | research
  | efficiency
  | social
  | ecosystem
  | technical
deriving Repr, DecidableEq

/-- `src/models/impact.py` `ImpactVector` (the fields its validation reads;
the free-form `domain_weights`/`metrics` dicts are never validated and are
omitted). -/
structure ImpactVector where
  category : ImpactCategory
  magnitude : PFloat
  time_horizon : PFloat
  uncertainty_bounds : PFloat × PFloat
  causal_dependencies : List String
deriving Repr, DecidableEq

/-- `ImpactVector.__post_init__`: the fail-fast validation chain, in source
order (impact.py lines 33-48). -/
def validateImpactVector (v : ImpactVector) : Except String Unit :=
  if v.magnitude.isnan || v.magnitude.isinf || v.magnitude.le (.fin 0) then
    Except.error "Invalid magnitude"
  else if v.time_horizon.lt (.fin 0) then
    Except.error "Negative time horizon"
  else if v.uncertainty_bounds.1.isnan || v.uncertainty_bounds.1.isinf ||
      v.uncertainty_bounds.2.isnan || v.uncertainty_bounds.2.isinf then
    Except.error "Invalid uncertainty bounds"
  else if v.uncertainty_bounds.2.lt v.uncertainty_bounds.1 then
    Except.error "Uncertainty bounds must be min then max"
  else Except.ok ()

/-- Magnitude is NaN, infinite, or ≤ 0. -/
def badMagnitude (x : PFloat) : Prop :=
  x = .nan ∨ x = .pinf ∨ x = .ninf ∨ ∃ q, x = .fin q ∧ q ≤ 0

/-- An uncertainty bound is NaN or infinite. -/
def badBound (x : PFloat) : Prop := x = .nan ∨ x = .pinf ∨ x = .ninf

/-- The uncertainty bounds are inverted: lower > upper.  (Restricted to the
finite case; a non-finite bound already falls under `badBound`, so the
overall disjunction below is unchanged.) -/
def invertedBounds (b : PFloat × PFloat) : Prop :=
  ∃ a c, b = (.fin a, .fin c) ∧ c < a

/-- The time horizon is negative (a negative finite value or -inf). -/
def negativeHorizon (x : PFloat) : Prop :=
  (∃ q, x = .fin q ∧ q < 0) ∨ x = .ninf

/-- Exactly the invalidity conditions listed by the spec. -/
def impactVectorInvalid (v : ImpactVector) : Prop :=
  badMagnitude v.magnitude ∨ badBound v.uncertainty_bounds.1 ∨
    badBound v.uncertainty_bounds.2 ∨ invertedBounds v.uncertainty_bounds ∨
    negativeHorizon v.time_horizon

theorem badMagnitude_iff (x : PFloat) :
    (x.isnan || x.isinf || x.le (.fin 0)) = true ↔ badMagnitude x := by
  cases x <;> simp [PFloat.isnan, PFloat.isinf, PFloat.le, badMagnitude]

theorem badBounds_iff (b1 b2 : PFloat) :
    (b1.isnan || b1.isinf || b2.isnan || b2.isinf) = true ↔ badBound b1 ∨ badBound b2 := by
  cases b1 <;> cases b2 <;> simp [PFloat.isnan, PFloat.isinf, badBound]

theorem negativeHorizon_iff (x : PFloat) :
    x.lt (.fin 0) = true ↔ negativeHorizon x := by
  cases x <;> simp [PFloat.lt, negativeHorizon]

theorem not_badBound_fin (x : PFloat) (h : ¬ badBound x) : ∃ q, x = .fin q := by
  cases x <;> simp [badBound] at h ⊢

/-- C6: `ImpactVector` construction fails if and only if the magnitude is
NaN, infinite or ≤ 0, or an uncertainty bound is NaN or infinite, or the
bounds are inverted (lower > upper), or the time horizon is negative; every
vector passing these checks is constructed successfully. -/
theorem C6_validation_iff (v : ImpactVector) :
    validateImpactVector v = Except.ok () ↔ ¬ impactVectorInvalid v := by
  unfold validateImpactVector
  by_cases h1 : (v.magnitude.isnan || v.magnitude.isinf || v.magnitude.le (.fin 0)) = true
  · rw [if_pos h1]
    have hinv : impactVectorInvalid v := Or.inl ((badMagnitude_iff _).1 h1)
    constructor
    · intro h; exact absurd h (by simp)
    · intro hn; exact absurd hinv hn
  · rw [if_neg h1]
    by_cases h2 : v.time_horizon.lt (.fin 0) = true
    · rw [if_pos h2]
      have hinv : impactVectorInvalid v :=
        Or.inr (Or.inr (Or.inr (Or.inr ((negativeHorizon_iff _).1 h2))))
      constructor
      · intro h; exact absurd h (by simp)
      · intro hn; exact absurd hinv hn
    · rw [if_neg h2]
      by_cases h3 : (v.uncertainty_bounds.1.isnan || v.uncertainty_bounds.1.isinf ||
          v.uncertainty_bounds.2.isnan || v.uncertainty_bounds.2.isinf) = true
      · rw [if_pos h3]
        have hinv : impactVectorInvalid v := by
          rcases (badBounds_iff _ _).1 h3 with h | h
          · exact Or.inr (Or.inl h)
          · exact Or.inr (Or.inr (Or.inl h))
        constructor
        · intro h; exact absurd h (by simp)
        · intro hn; exact absurd hinv hn
      · rw [if_neg h3]
        have hb1 : ¬ badBound v.uncertainty_bounds.1 := by
          intro hb; exact h3 ((badBounds_iff _ _).2 (Or.inl hb))
        have hb2 : ¬ badBound v.uncertainty_bounds.2 := by
          intro hb; exact h3 ((badBounds_iff _ _).2 (Or.inr hb))
        obtain ⟨a, ha⟩ := not_badBound_fin _ hb1
        obtain ⟨c, hc⟩ := not_badBound_fin _ hb2
        by_cases h4 : v.uncertainty_bounds.2.lt v.uncertainty_bounds.1 = true
        · rw [if_pos h4]
          have hca : c < a := by
            rw [ha, hc] at h4
            simpa [PFloat.lt] using h4
          have hinv : impactVectorInvalid v :=
            Or.inr (Or.inr (Or.inr (Or.inl ⟨a, c, by rw [← ha, ← hc], hca⟩)))
          constructor
          · intro h; exact absurd h (by simp)
          · intro hn; exact absurd hinv hn
        · rw [if_neg h4]
          constructor
          · intro _ hinv
            rcases hinv with hm | hb | hb | hivt | hh
            · exact h1 ((badMagnitude_iff _).2 hm)
            · exact hb1 hb
            · exact hb2 hb
            · obtain ⟨a2, c2, hbb, hlt⟩ := hivt
              apply h4
              rw [hbb]
              simpa [PFloat.lt] using hlt
            · exact h2 ((negativeHorizon_iff _).2 hh)
          · intro _; rfl

/-! ### C7: single-task surplus (spec-modelled surplus engine) -/

/-- Modelled from the spec: the surplus engine source
(`src/engine/surplus.py`, class `CooperativeSurplusEngine`) is not present
under src/ — only its tests and callers are — so the §4.1 computation of
`calculate_cluster_surplus` is reconstructed here from the spec's formulas.
A projection carries the fields §4.1 reads: `task_id`, `distribution_mean`,
the target vector's `causal_dependencies`, and the optional `agent_role`
metadata tag. -/
structure ProjectionS where
  task_id : String
  distribution_mean : ℝ
  causal_dependencies : List String
  agent_role : Option String

/-- Modelled from the spec: the surplus engine's two adaptive scalars. -/
structure SurplusParams where
  synergy_multiplier : ℝ
  dependency_risk_factor : ℝ

/-- Modelled from the spec: dependency edges into tasks of the same cluster
(flat counts, no traversal). -/
def internalDeps (ps : List ProjectionS) : ℕ :=
  (ps.map (fun p => (p.causal_dependencies.filter
    (fun d => d ∈ ps.map (·.task_id))).length)).sum

/-- Modelled from the spec: dependency edges leaving the cluster. -/
def externalDeps (ps : List ProjectionS) : ℕ :=
  (ps.map (fun p => (p.causal_dependencies.filter
    (fun d => d ∉ ps.map (·.task_id))).length)).sum

/-- Modelled from the spec: `diversity = distinct(agent_role tags, default
1 role) / num_tasks`, clipped to [0,1]. -/
noncomputable def diversityOf (ps : List ProjectionS) : ℝ :=
  let distinct := (ps.filterMap (·.agent_role)).dedup.length
  let count := if distinct = 0 then 1 else distinct
  min 1 ((count : ℝ) / (ps.length : ℝ))

/-- Modelled from the spec: `density = internal / (n·(n-1))` (0 if the
denominator is 0). -/
noncomputable def densityOf (ps : List ProjectionS) : ℝ :=
  if ps.length * (ps.length - 1) = 0 then 0
  else (internalDeps ps : ℝ) / ((ps.length * (ps.length - 1) : ℕ) : ℝ)

/-- Modelled from the spec: `interdependence = internal / n`. -/
noncomputable def interdependenceOf (ps : List ProjectionS) : ℝ :=
  (internalDeps ps : ℝ) / (ps.length : ℝ)

/-- Modelled from the spec: `synergy_bonus = diversity^0.4 ·
(1 + interdependence^1.2) · exp(density · synergy_multiplier · 4)`. -/
noncomputable def synergyBonus (eng : SurplusParams) (ps : List ProjectionS) : ℝ :=
  diversityOf ps ^ ((2:ℝ)/5) * (1 + interdependenceOf ps ^ ((6:ℝ)/5)) *
    Real.exp (densityOf ps * eng.synergy_multiplier * 4)

/-- Modelled from the spec: `risk_discount = 1 / (1 + external ·
dependency_risk_factor)`. -/
noncomputable def riskDiscount (eng : SurplusParams) (ps : List ProjectionS) : ℝ :=
  1 / (1 + (externalDeps ps : ℝ) * eng.dependency_risk_factor)

/-- Modelled from the spec: the fields of the returned pool the claims read. -/
structure SurplusPoolS where
  cluster_id : String
  total_surplus : ℝ
  task_ids : List String

/-- Modelled from the spec: `calculate_cluster_surplus` — `base_surplus =
Σ distribution_mean`, `total_surplus = base_surplus · synergy_bonus ·
risk_discount` (empty input gives the zero pool). -/
noncomputable def calculate_cluster_surplus (eng : SurplusParams) (cid : String)
    (ps : List ProjectionS) : SurplusPoolS :=
  match ps with
  | [] => { cluster_id := cid, total_surplus := 0, task_ids := [] }
  | q :: qs =>
    { cluster_id := cid
      total_surplus := ((q :: qs).map (·.distribution_mean)).sum *
        synergyBonus eng (q :: qs) * riskDiscount eng (q :: qs)
      task_ids := (q :: qs).map (·.task_id) }

/-- C7: a cluster of exactly one projection with no causal dependencies has
`total_surplus` equal to the projection's `distribution_mean` exactly — the
synergy bonus and risk discount are both 1. -/
theorem C7_single_task_no_deps (eng : SurplusParams) (cid : String) (p : ProjectionS)
    (hdeps : p.causal_dependencies = []) :
    synergyBonus eng [p] = 1 ∧ riskDiscount eng [p] = 1 ∧
      (calculate_cluster_surplus eng cid [p]).total_surplus = p.distribution_mean := by
  have hint : internalDeps [p] = 0 := by
    simp [internalDeps, hdeps]
  have hext : externalDeps [p] = 0 := by
    simp [externalDeps, hdeps]
  have hdiv : diversityOf [p] = 1 := by
    unfold diversityOf
    cases hr : p.agent_role with
    | none => simp [hr]
    | some r => simp [hr]
  have hden : densityOf [p] = 0 := by
    simp [densityOf]
  have hinter : interdependenceOf [p] = 0 := by
    simp [interdependenceOf, hint]
  have hsyn : synergyBonus eng [p] = 1 := by
    unfold synergyBonus
    rw [hdiv, hden, hinter, Real.one_rpow, Real.zero_rpow (by norm_num)]
    simp
  have hrisk : riskDiscount eng [p] = 1 := by
    unfold riskDiscount
    rw [hext]
    simp
  refine ⟨hsyn, hrisk, ?_⟩
  show ((([p].map (·.distribution_mean)).sum * synergyBonus eng [p] *
    riskDiscount eng [p] : ℝ)) = p.distribution_mean
  rw [hsyn, hrisk]
  simp

/-- Witness for C7 at the concrete projection of
`tests/test_surplus.py::test_single_task_no_deps` (mean 100). -/
theorem C7_single_task_no_deps_witness :
    synergyBonus ⟨1/5, 1/10⟩ [⟨"t1", 100, [], none⟩] = 1 ∧
      riskDiscount ⟨1/5, 1/10⟩ [⟨"t1", 100, [], none⟩] = 1 ∧
      (calculate_cluster_surplus ⟨1/5, 1/10⟩ "cluster-1"
        [⟨"t1", 100, [], none⟩]).total_surplus =
        (ProjectionS.mk "t1" 100 [] none).distribution_mean :=
  C7_single_task_no_deps ⟨1/5, 1/10⟩ "cluster-1" ⟨"t1", 100, [], none⟩ rfl

end A2A
